import Mathlib

/-!
Verification of the pull change-application engine (`pull.go` of the drive
repository): the batched concurrent applier `playPullChangeList`, the three
per-operation handlers `localMod` / `localAdd` / `localDelete`, and the
content materializer `download`.

Modelling conventions: Go errors are message strings (`none` is the nil
error); the local filesystem is a flat association of absolute path strings
to entries; fallible platform and transport calls (`os.Create`, `io.Copy`,
`os.MkdirAll`, `os.RemoveAll`, remote `Download`) are parameterized by
oracles so that every failure path of the source is representable; the
current clock is an explicit `now : Int` parameter (used where `os` stamps a
freshly created entry with the current time).
-/

namespace Drive

/-- Errors are represented by their message strings; `none` models Go's nil error. -/
abbrev Err := String

/-- Modelled from the spec: the file snapshot type (declared outside `pull.go`;
§3 of the spec). Only the fields `pull.go` reads are carried: `IsDir`,
`BlobAt`, `ExportLinks`, `MimeType`, `ModTime`, plus the remote content `Id`
passed to `Download`. `ExportLinks = none` models a nil Go map; `ModTime` is
an abstract instant. -/
structure FileMeta where
  IsDir : Bool
  BlobAt : String
  ExportLinks : Option (List (String × String))
  MimeType : String
  ModTime : Int
  Id : String
deriving DecidableEq, Inhabited

/-- Modelled from the spec: the derived classification `Op()` of a Change
(computed by the external resolver, §3 of the spec), stored as a plain tag. -/
inductive OpKind where
  | Add
  | Mod
  | Delete
deriving DecidableEq, Inhabited

/-- Modelled from the spec: one `Change` row of the diff plan (§3): logical
`Path`, target snapshot `Src`, current local snapshot `Dest` (for delete,
`Dest.BlobAt` holds the local path to remove), and the resolver-computed
operation classification. -/
structure Change where
  Path : String
  Src : FileMeta
  Dest : FileMeta
  op : OpKind
deriving DecidableEq, Inhabited

/-- `maxNumOfConcPullTasks` (pull.go line 27). -/
def maxNumOfConcPullTasks : Nat := 4

/-- `docExportsMap` (pull.go lines 30-44): MIME type of a cloud-native
document to `[export MIME type, file extension]`. A Go map with distinct
keys, modelled as an association list. -/
def docExportsMap : List (String × List String) :=
  [("text/plain", ["text/plain", "txt"]),
   ("application/vnd.google-apps.drawing", ["image/svg+xml", "svg+xml"]),
   ("application/vnd.google-apps.spreadsheet",
     ["application/vnd.openxmlformats-officedocument.spreadsheetml.sheet", "xlsx"]),
   ("application/vnd.google-apps.document",
     ["application/vnd.openxmlformats-officedocument.wordprocessingml.document", "docx"]),
   ("application/vnd.google-apps.presentation",
     ["application/vnd.openxmlformats-officedocument.presentationml.presentation", "pptx"])]

/-- A local filesystem entry: directory flag, modification time, file bytes. -/
structure Entry where
  isDir : Bool
  modTime : Int
  content : String
deriving DecidableEq, Inhabited

/-- The local filesystem: a flat association of absolute paths to entries. -/
abbrev Fs := List (String × Entry)

/-- First entry registered under path `p`, if any. -/
def fsLookup : Fs → String → Option Entry
  | [], _ => none
  | kv :: tl, p => if kv.1 = p then some kv.2 else fsLookup tl p

/-- Replace the entry at path `p` (every registration of `p`), or insert it. -/
def fsSet (fs : Fs) (p : String) (v : Entry) : Fs :=
  if (fsLookup fs p).isSome then
    fs.map fun kv => if kv.1 = p then (p, v) else kv
  else
    (p, v) :: fs

/-- The ambient path context: `absPathOf` models `g.context.AbsPathOf`,
`dirOf` models `filepath.Dir`. -/
structure Sys where
  absPathOf : String → String
  dirOf : String → String

/-- Failure oracles for the platform and transport calls made by `pull.go`:
`createFails p` is the error of `os.Create(p)` if it fails; `copyFails p` the
error of `io.Copy` into the file at `p`; `mkdirAllFails p` a failure of
`os.MkdirAll(p, ...)` not caused by `p` existing (e.g. permissions);
`removeFails p` a failure of `os.RemoveAll(p)` on an existing subtree;
`transport id url` models `g.rem.Download(id, url)`, returning the fetched
bytes or an error. -/
structure Env where
  createFails : String → Option Err
  copyFails : String → Option Err
  mkdirAllFails : String → Option Err
  removeFails : String → Option Err
  transport : String → String → Except Err String

/-- `os.Chtimes(p, t, t)`: errors if `p` does not exist, otherwise updates
the entry's modification time. -/
def osChtimes (fs : Fs) (p : String) (t : Int) : Fs × Option Err :=
  match fsLookup fs p with
  | none => (fs, some ("chtimes " ++ p ++ ": no such file or directory"))
  | some e => (fsSet fs p { e with modTime := t }, none)

/-- `os.Mkdir(p, ...)`: errors if `p` already exists, otherwise creates the
directory stamped with the current time. -/
def osMkdir (now : Int) (fs : Fs) (p : String) : Fs × Option Err :=
  match fsLookup fs p with
  | some _ => (fs, some ("mkdir " ++ p ++ ": file exists"))
  | none => (fsSet fs p { isDir := true, modTime := now, content := "" }, none)

/-- `os.MkdirAll(p, ...)`: nil when `p` already exists (idempotent
`mkdir -p`); otherwise creates it (the chain is collapsed to the requested
directory in this flat path model) unless the oracle reports a failure such
as a permission error. -/
def osMkdirAll (env : Env) (now : Int) (fs : Fs) (p : String) : Fs × Option Err :=
  match env.mkdirAllFails p with
  | some e => (fs, some e)
  | none =>
    match fsLookup fs p with
    | some _ => (fs, none)
    | none => (fsSet fs p { isDir := true, modTime := now, content := "" }, none)

/-- `b` is `p` itself or lies strictly below directory `p`. -/
def underPath (p b : String) : Bool :=
  b == p || (p ++ "/").data.isPrefixOf b.data

/-- `os.RemoveAll(p)`: nil (and no change) when nothing exists at or under
`p`; otherwise removes the whole subtree, unless the oracle reports a
failure such as a permission error. -/
def osRemoveAll (env : Env) (fs : Fs) (p : String) : Fs × Option Err :=
  if fs.all fun kv => !(underPath p kv.1) then
    (fs, none)
  else
    match env.removeFails p with
    | some e => (fs, some e)
    | none => (fs.filter fun kv => !(underPath p kv.1), none)

/-- Go map indexing with the string zero value: `links[k]` where
`links` may be nil (pull.go line 163). -/
def exportLinksGet (links : Option (List (String × String))) (k : String) : String :=
  match links with
  | none => ""
  | some m =>
    match List.lookup k m with
    | none => ""
    | some v => v

/-- The export-selection prefix of `download` (pull.go lines 145-167):
returns `(exportUrl, baseName, printed messages)`. When `BlobAt` is empty,
the MIME type is looked up in `docExportsMap` (falling back to
`["text/plain", "txt"]`), the export URL is taken from `Src.ExportLinks` at
the export MIME type, the base name gets `"." ++ extension` appended
(`strings.Join` with separator `"."`), and the rename notice of
`fmt.Print` / `fmt.Println` is emitted. -/
def exportPlan (change : Change) : String × String × List String :=
  let exportUrl : String := ""
  let baseName : String := change.Path
  if change.Src.BlobAt.length < 1 then
    let mimeKeyExtList : List String :=
      match List.lookup change.Src.MimeType docExportsMap with
      | some l => l
      | none => ["text/plain", "txt"]
    let exportUrl := exportLinksGet change.Src.ExportLinks (mimeKeyExtList.getD 0 "")
    let baseName2 := baseName ++ "." ++ mimeKeyExtList.getD 1 ""
    (exportUrl, baseName2, ["Exported " ++ baseName, " to:  " ++ baseName2 ++ "\n"])
  else
    (exportUrl, baseName, [])

/-- One resource handled by `download`: the created destination file handle
`fo`, or the remote response stream `blob`. -/
inductive Rsrc where
  | file
  | blob
deriving DecidableEq

/-- Resource event of one `download` run. -/
inductive DlEv where
  | acquire (r : Rsrc)
  | release (r : Rsrc)
deriving DecidableEq

/-- Outcome of one `download` run: resulting filesystem, messages printed,
transport `Download` invocations made (id, export URL), resource events in
order, and the returned error. -/
structure DlResult where
  fs : Fs
  printed : List String
  calls : List (String × String)
  events : List DlEv
  ret : Option Err

/-- Embedding of `download` (pull.go lines 144-195). After the export
selection, the destination file is created (truncate-or-create, stamped with
the current time), the remote stream is fetched, and the bytes are copied
in. Two defers release the file handle (its close error is discarded) and,
when non-nil, the remote stream; Go runs them in LIFO order on every return,
which is reflected in `events`. -/
def download (sys : Sys) (env : Env) (now : Int) (fs : Fs) (change : Change) : DlResult :=
  let eb := exportPlan change
  let exportUrl := eb.1
  let baseName := eb.2.1
  let printed := eb.2.2
  let destAbsPath := sys.absPathOf baseName
  match env.createFails destAbsPath with
  | some e => { fs := fs, printed := printed, calls := [], events := [], ret := some e }
  | none =>
    let fs1 := fsSet fs destAbsPath { isDir := false, modTime := now, content := "" }
    match env.transport change.Src.Id exportUrl with
    | Except.error e =>
      { fs := fs1, printed := printed, calls := [(change.Src.Id, exportUrl)],
        events := [DlEv.acquire Rsrc.file, DlEv.release Rsrc.file], ret := some e }
    | Except.ok bs =>
      match env.copyFails destAbsPath with
      | some e =>
        { fs := fs1, printed := printed, calls := [(change.Src.Id, exportUrl)],
          events := [DlEv.acquire Rsrc.file, DlEv.acquire Rsrc.blob,
                     DlEv.release Rsrc.blob, DlEv.release Rsrc.file],
          ret := some e }
      | none =>
        { fs := fsSet fs1 destAbsPath { isDir := false, modTime := now, content := bs },
          printed := printed, calls := [(change.Src.Id, exportUrl)],
          events := [DlEv.acquire Rsrc.file, DlEv.acquire Rsrc.blob,
                     DlEv.release Rsrc.blob, DlEv.release Rsrc.file],
          ret := none }

/-- Outcome of one handler run: resulting filesystem, messages printed,
transport invocations made, and the returned error. -/
structure HRes where
  fs : Fs
  printed : List String
  calls : List (String × String)
  ret : Option Err
deriving DecidableEq

/-- Embedding of `localMod` (pull.go lines 106-118): when the source carries
content (`BlobAt != ""` or `ExportLinks != nil`), download and replace,
returning early on a download error; then set the destination's modification
time to `Src.ModTime`. -/
def localMod (sys : Sys) (env : Env) (now : Int) (fs : Fs) (change : Change) : HRes :=
  let destAbsPath := sys.absPathOf change.Path
  if change.Src.BlobAt ≠ "" ∨ change.Src.ExportLinks.isSome then
    let d := download sys env now fs change
    if d.ret.isSome then
      { fs := d.fs, printed := d.printed, calls := d.calls, ret := d.ret }
    else
      let ch := osChtimes d.fs destAbsPath change.Src.ModTime
      { fs := ch.1, printed := d.printed, calls := d.calls, ret := ch.2 }
  else
    let ch := osChtimes fs destAbsPath change.Src.ModTime
    { fs := ch.1, printed := [], calls := [], ret := ch.2 }

/-- Embedding of `localAdd` (pull.go lines 120-136): make the parent
directory chain, discarding the result of `os.MkdirAll`; for a directory
target, return the result of `os.Mkdir`; otherwise download content when the
source carries any, returning early on a download error, and finally set the
modification time to `Src.ModTime`. -/
def localAdd (sys : Sys) (env : Env) (now : Int) (fs : Fs) (change : Change) : HRes :=
  let destAbsPath := sys.absPathOf change.Path
  let fs1 := (osMkdirAll env now fs (sys.dirOf destAbsPath)).1
  if change.Src.IsDir then
    let mk := osMkdir now fs1 destAbsPath
    { fs := mk.1, printed := [], calls := [], ret := mk.2 }
  else if change.Src.BlobAt ≠ "" ∨ change.Src.ExportLinks.isSome then
    let d := download sys env now fs1 change
    if d.ret.isSome then
      { fs := d.fs, printed := d.printed, calls := d.calls, ret := d.ret }
    else
      let ch := osChtimes d.fs destAbsPath change.Src.ModTime
      { fs := ch.1, printed := d.printed, calls := d.calls, ret := ch.2 }
  else
    let ch := osChtimes fs1 destAbsPath change.Src.ModTime
    { fs := ch.1, printed := [], calls := [], ret := ch.2 }

/-- Embedding of `localDelete` (pull.go lines 138-142): remove the local
subtree at `Dest.BlobAt` recursively. -/
def localDelete (env : Env) (fs : Fs) (change : Change) : Fs × Option Err :=
  osRemoveAll env fs change.Dest.BlobAt

/-- One scheduling event of the applier: a task (identified by its position
in the change list, together with its change) is handed to a goroutine by
the `go` statement, or its handler returns with result `r` (and `wg.Done()`
fires). -/
inductive Ev where
  | dispatch (i : Nat) (c : Change)
  | complete (i : Nat) (c : Change) (r : Option Err)
deriving DecidableEq

/-- The batch split of the loop head of `playPullChangeList` (pull.go lines
77-81): `next, cl = cl[:4], cl[4:]` when more than `maxNumOfConcPullTasks`
changes remain, else `next, cl = cl, []`. -/
def popBatch (cl : List Change) : List Change × List Change :=
  if cl.length > maxNumOfConcPullTasks then
    (cl.take maxNumOfConcPullTasks, cl.drop maxNumOfConcPullTasks)
  else
    (cl, [])

/-- The consecutive batches the loop of `playPullChangeList` processes, in
order. -/
def batches (cl : List Change) : List (List Change) :=
  if h : cl = [] then []
  else
    (popBatch cl).1 :: batches (popBatch cl).2
termination_by cl.length
decreasing_by
  simp only [popBatch, maxNumOfConcPullTasks]
  split
  · rename_i hgt
    simp only [List.length_drop]
    omega
  · simp only [List.length_nil]
    exact List.length_pos.mpr h

/-- The per-task events of one batch whose tasks start at global index
`base` and end with the results `rs`: each task contributes its dispatch and
its completion. -/
def taskEvents : Nat → List Change → List (Option Err) → List Ev
  | _, [], _ => []
  | _, _ :: _, [] => []
  | base, c :: cs, r :: rs =>
    Ev.dispatch base c :: Ev.complete base c r :: taskEvents (base + 1) cs rs

/-- A possible event segment of one batch: the `go` statements run the
batch's tasks concurrently, so the segment is any permutation of the batch's
dispatch and completion events, for some list of per-task results; `wg.Wait`
confines all of them to the segment. -/
def ValidBatchTrace (base : Nat) (b : List Change) (seg : List Ev) : Prop :=
  ∃ rs : List (Option Err), rs.length = b.length ∧ seg.Perm (taskEvents base b rs)

/-- The event traces `playPullChangeList` can produce from global task index
`base` on: the loop handles one batch per iteration and `wg.Wait` ends the
batch's segment before the next iteration dispatches anything. -/
inductive ValidFrom : Nat → List Change → List Ev → Prop
  | nil {base : Nat} : ValidFrom base [] []
  | cons {base : Nat} {cl : List Change} {seg rest : List Ev}
      (hne : cl ≠ [])
      (hseg : ValidBatchTrace base (popBatch cl).1 seg)
      (hrest : ValidFrom (base + (popBatch cl).1.length) (popBatch cl).2 rest) :
      ValidFrom base cl (seg ++ rest)

/-- The event traces of a whole `playPullChangeList` run on `cl`. -/
def ValidTrace (cl : List Change) (t : List Ev) : Prop :=
  ValidFrom 0 cl t

/-- The per-task results of the tasks at global indices `base`, ...,
`base + n - 1` under the result assignment `results`. -/
def resultsList (results : Nat → Option Err) (base n : Nat) : List (Option Err) :=
  (List.range n).map fun p => results (base + p)

/-- A deterministic run of the loop of `playPullChangeList` (pull.go lines
72-104) from global task index `base`, under the per-task result assignment
`results`: batch after batch, every task of the current batch is dispatched
and runs to completion, and the `err` named return is never assigned by the
loop, so the value returned at line 103 is the nil error it was initialized
to. -/
def playRun (results : Nat → Option Err) (base : Nat) (cl : List Change) :
    List Ev × Option Err :=
  if h : cl = [] then ([], none)
  else
    let next := (popBatch cl).1
    let r := playRun results (base + next.length) (popBatch cl).2
    (taskEvents base next (resultsList results base next.length) ++ r.1, r.2)
termination_by cl.length
decreasing_by
  simp only [popBatch, maxNumOfConcPullTasks]
  split
  · rename_i hgt
    simp only [List.length_drop]
    omega
  · simp only [List.length_nil]
    exact List.length_pos.mpr h

/-- The modification time recorded at path `p`, if an entry exists there. -/
def entryModTime (fs : Fs) (p : String) : Option Int :=
  (fsLookup fs p).map Entry.modTime

/-- Concrete path context used by the witnesses. -/
def sysW : Sys :=
  { absPathOf := fun p => "/mnt/gd/" ++ p, dirOf := fun _ => "/mnt/gd" }

/-- Concrete oracle environment in which every platform call succeeds and
every transport fetch yields `"payload"`. -/
def envW : Env :=
  { createFails := fun _ => none, copyFails := fun _ => none,
    mkdirAllFails := fun _ => none, removeFails := fun _ => none,
    transport := fun _ _ => Except.ok "payload" }

/-- A google-document change with an export link and no raw blob. -/
def changeDoc : Change :=
  { Path := "notes/report",
    Src := { IsDir := false, BlobAt := "",
             ExportLinks := some
               [("application/vnd.openxmlformats-officedocument.wordprocessingml.document",
                 "https://export/doc")],
             MimeType := "application/vnd.google-apps.document",
             ModTime := 5, Id := "id-doc" },
    Dest := default, op := OpKind.Mod }

/-- A change with an unknown MIME type and no raw blob. -/
def changeUnknown : Change :=
  { Path := "notes/odd",
    Src := { IsDir := false, BlobAt := "",
             ExportLinks := some [("text/plain", "https://export/txt")],
             MimeType := "application/x-zzz",
             ModTime := 5, Id := "id-odd" },
    Dest := default, op := OpKind.Mod }

/-- A change carrying a raw blob. -/
def changeBlob : Change :=
  { Path := "notes/raw.bin",
    Src := { IsDir := false, BlobAt := "blob-1",
             ExportLinks := none, MimeType := "application/octet-stream",
             ModTime := 5, Id := "id-raw" },
    Dest := default, op := OpKind.Mod }

/-- A directory-add change. -/
def changeDir : Change :=
  { Path := "album",
    Src := { IsDir := true, BlobAt := "", ExportLinks := none,
             MimeType := "application/vnd.google-apps.folder",
             ModTime := 5, Id := "id-dir" },
    Dest := default, op := OpKind.Add }

/-- A metadata-only change: non-directory, no blob, no export links. -/
def changePlain : Change :=
  { Path := "f",
    Src := { IsDir := false, BlobAt := "", ExportLinks := none,
             MimeType := "text/x-unknown", ModTime := 5, Id := "id-f" },
    Dest := default, op := OpKind.Mod }

/-- A filesystem already carrying the plain file at its absolute path. -/
def fsPlain : Fs := [("/mnt/gd/f", { isDir := false, modTime := 0, content := "old" })]

/-- A blob-bearing addition below a fresh parent directory. -/
def changeAddBlob : Change :=
  { Path := "fresh/raw.bin",
    Src := { IsDir := false, BlobAt := "blob-2", ExportLinks := none,
             MimeType := "application/octet-stream", ModTime := 5, Id := "id-add" },
    Dest := default, op := OpKind.Add }

/-- An environment whose parent-directory creation always fails with a
permission error. -/
def envPerm : Env :=
  { envW with mkdirAllFails := fun _ => some "mkdir /mnt/gd: permission denied" }

/-- A delete change naming an absent local path. -/
def changeDel : Change :=
  { Path := "old", Src := default,
    Dest := { IsDir := false, BlobAt := "/mnt/gd/old", ExportLinks := none,
              MimeType := "", ModTime := 0, Id := "" },
    op := OpKind.Delete }

/-- A filesystem holding only an unrelated file. -/
def fsKeep : Fs := [("/mnt/gd/keep", { isDir := false, modTime := 1, content := "k" })]

/-- Global task index an event belongs to. -/
def evIdx : Ev → Nat
  | Ev.dispatch i _ => i
  | Ev.complete i _ _ => i

/-- Five concrete changes: a full batch of four and a trailing batch of one. -/
def clW : List Change := [changeDoc, changeUnknown, changeBlob, changePlain, changeDir]

/-- A result assignment in which the odd-numbered tasks fail. -/
def resultsW : Nat → Option Err := fun i => if i % 2 = 0 then none else some "boom"

theorem length_not_lt_one {s : String} (h : s ≠ "") : ¬ s.length < 1 := by
  intro hlt
  have h0 : s.length = 0 := by omega
  exact h (String.ext (List.length_eq_zero.mp h0))

theorem append_dot (p ext s : String) (h : "." ++ ext = s) :
    p ++ "." ++ ext = p ++ s := by
  rw [String.append_assoc, h]

theorem fsLookup_map_set (fs : Fs) (p : String) (v : Entry)
    (hs : (fsLookup fs p).isSome) :
    fsLookup (fs.map fun kv => if kv.1 = p then (p, v) else kv) p = some v := by
  induction fs with
  | nil => simp [fsLookup] at hs
  | cons kv tl ih =>
    by_cases hk : kv.1 = p
    · simp [fsLookup, hk]
    · simp only [List.map_cons, if_neg hk, fsLookup]
      exact ih (by simpa [fsLookup, if_neg hk] using hs)

theorem fsLookup_map_ne (fs : Fs) (p : String) (v : Entry) (q : String)
    (h : q ≠ p) :
    fsLookup (fs.map fun kv => if kv.1 = p then (p, v) else kv) q = fsLookup fs q := by
  induction fs with
  | nil => rfl
  | cons kv tl ih =>
    by_cases hk : kv.1 = p
    · have hq : kv.1 ≠ q := by rw [hk]; exact fun hc => h hc.symm
      simp only [List.map_cons, if_pos hk, fsLookup]
      rw [if_neg (fun hc : p = q => h hc.symm), if_neg (fun hc : kv.1 = q => hq hc)]
      exact ih
    · simp only [List.map_cons, if_neg hk, fsLookup]
      exact if_congr Iff.rfl rfl ih

theorem fsLookup_fsSet_self (fs : Fs) (p : String) (v : Entry) :
    fsLookup (fsSet fs p v) p = some v := by
  unfold fsSet
  split
  · exact fsLookup_map_set fs p v (by assumption)
  · simp [fsLookup]

theorem fsLookup_fsSet_ne (fs : Fs) (p : String) (v : Entry) (q : String)
    (h : q ≠ p) :
    fsLookup (fsSet fs p v) q = fsLookup fs q := by
  unfold fsSet
  split
  · exact fsLookup_map_ne fs p v q h
  · simp only [fsLookup]
    rw [if_neg (fun hc : p = q => h hc.symm)]

theorem osChtimes_none_modTime (fs : Fs) (p : String) (t : Int)
    (h : (osChtimes fs p t).2 = none) :
    entryModTime (osChtimes fs p t).1 p = some t := by
  unfold osChtimes at h ⊢
  cases he : fsLookup fs p with
  | none => rw [he] at h; exact absurd h (by simp)
  | some e => simp [entryModTime, fsLookup_fsSet_self]

theorem exportPlan_eq (change : Change) (m ext : String)
    (hb : change.Src.BlobAt = "")
    (hml : (match List.lookup change.Src.MimeType docExportsMap with
            | some l => l
            | none => ["text/plain", "txt"]) = [m, ext]) :
    exportPlan change =
      (exportLinksGet change.Src.ExportLinks m,
       change.Path ++ "." ++ ext,
       ["Exported " ++ change.Path,
        " to:  " ++ (change.Path ++ "." ++ ext) ++ "\n"]) := by
  unfold exportPlan
  rw [hb, if_pos (show ("" : String).length < 1 by decide), hml]
  rfl

theorem exportPlan_blob (change : Change) (hb : change.Src.BlobAt ≠ "") :
    exportPlan change = ("", change.Path, []) := by
  unfold exportPlan
  rw [if_neg (length_not_lt_one hb)]

theorem download_printed (sys : Sys) (env : Env) (now : Int) (fs : Fs)
    (change : Change) :
    (download sys env now fs change).printed = (exportPlan change).2.2 := by
  unfold download
  dsimp only
  split
  · rfl
  · split
    · rfl
    · split <;> rfl

theorem download_calls (sys : Sys) (env : Env) (now : Int) (fs : Fs)
    (change : Change) :
    ∀ c ∈ (download sys env now fs change).calls,
      c = (change.Src.Id, (exportPlan change).1) := by
  unfold download
  dsimp only
  split
  · intro c hc; simp at hc
  · split
    · intro c hc; simpa using hc
    · split <;> (intro c hc; simpa using hc)

theorem download_calls_success (sys : Sys) (env : Env) (now : Int) (fs : Fs)
    (change : Change)
    (h1 : env.createFails (sys.absPathOf (exportPlan change).2.1) = none) :
    (download sys env now fs change).calls =
      [(change.Src.Id, (exportPlan change).1)] := by
  unfold download
  dsimp only
  rw [h1]
  dsimp only
  split <;> try rfl
  split <;> rfl

theorem download_success (sys : Sys) (env : Env) (now : Int) (fs : Fs)
    (change : Change) (bs : String)
    (h1 : env.createFails (sys.absPathOf (exportPlan change).2.1) = none)
    (h2 : env.transport change.Src.Id (exportPlan change).1 = Except.ok bs)
    (h3 : env.copyFails (sys.absPathOf (exportPlan change).2.1) = none) :
    (download sys env now fs change).ret = none ∧
    fsLookup (download sys env now fs change).fs
        (sys.absPathOf (exportPlan change).2.1) =
      some { isDir := false, modTime := now, content := bs } := by
  unfold download
  dsimp only
  rw [h1, h2, h3]
  exact ⟨rfl, fsLookup_fsSet_self _ _ _⟩

/-- C2: for every Change with empty `Src.BlobAt`, non-empty `Src.ExportLinks`
and `Src.MimeType = "application/vnd.google-apps.document"`, the materializer
writes the content to `Path ++ ".docx"` using the download URL stored in
`Src.ExportLinks` under the key
`"application/vnd.openxmlformats-officedocument.wordprocessingml.document"`,
and emits a status message naming the source path and the final suffixed
destination. -/
theorem download_doc_export_renaming (sys : Sys) (env : Env) (now : Int) (fs : Fs)
    (change : Change)
    (hb : change.Src.BlobAt = "")
    (hl : change.Src.ExportLinks ≠ none)
    (hm : change.Src.MimeType = "application/vnd.google-apps.document") :
    (download sys env now fs change).printed =
      ["Exported " ++ change.Path, " to:  " ++ (change.Path ++ ".docx") ++ "\n"]
    ∧ (∀ c ∈ (download sys env now fs change).calls,
        c = (change.Src.Id,
          exportLinksGet change.Src.ExportLinks
            "application/vnd.openxmlformats-officedocument.wordprocessingml.document"))
    ∧ (∀ bs : String,
        env.createFails (sys.absPathOf (change.Path ++ ".docx")) = none →
        env.transport change.Src.Id
          (exportLinksGet change.Src.ExportLinks
            "application/vnd.openxmlformats-officedocument.wordprocessingml.document")
          = Except.ok bs →
        env.copyFails (sys.absPathOf (change.Path ++ ".docx")) = none →
        (download sys env now fs change).ret = none ∧
        fsLookup (download sys env now fs change).fs
            (sys.absPathOf (change.Path ++ ".docx")) =
          some { isDir := false, modTime := now, content := bs }) := by
  have hlk : (match List.lookup change.Src.MimeType docExportsMap with
              | some l => l
              | none => ["text/plain", "txt"])
      = ["application/vnd.openxmlformats-officedocument.wordprocessingml.document",
         "docx"] := by
    rw [hm]; decide
  have hplan := exportPlan_eq change _ _ hb hlk
  have hdot : change.Path ++ "." ++ "docx" = change.Path ++ ".docx" :=
    append_dot _ _ _ rfl
  have e1 : (exportPlan change).2.1 = change.Path ++ ".docx" := by
    rw [hplan]; exact hdot
  have e2 : (exportPlan change).1 =
      exportLinksGet change.Src.ExportLinks
        "application/vnd.openxmlformats-officedocument.wordprocessingml.document" := by
    rw [hplan]
  refine ⟨?_, ?_, ?_⟩
  · rw [download_printed, hplan]
    dsimp only
    rw [hdot]
  · intro c hc
    have hmem := download_calls sys env now fs change c hc
    rw [e2] at hmem
    exact hmem
  · intro bs h1 h2 h3
    rw [← e1] at h1 h3
    rw [← e2] at h2
    have hs := download_success sys env now fs change bs h1 h2 h3
    rw [e1] at hs
    exact hs

/-- C5: for every Change with empty `Src.BlobAt` whose `Src.MimeType` is not
a key of the export table, the materializer uses the fallback pair
`(text/plain, txt)`: it selects the export URL at key `"text/plain"` and
writes the content to `Path ++ ".txt"`. -/
theorem download_fallback_export (sys : Sys) (env : Env) (now : Int) (fs : Fs)
    (change : Change)
    (hb : change.Src.BlobAt = "")
    (hm : List.lookup change.Src.MimeType docExportsMap = none) :
    (download sys env now fs change).printed =
      ["Exported " ++ change.Path, " to:  " ++ (change.Path ++ ".txt") ++ "\n"]
    ∧ (∀ c ∈ (download sys env now fs change).calls,
        c = (change.Src.Id, exportLinksGet change.Src.ExportLinks "text/plain"))
    ∧ (∀ bs : String,
        env.createFails (sys.absPathOf (change.Path ++ ".txt")) = none →
        env.transport change.Src.Id
          (exportLinksGet change.Src.ExportLinks "text/plain") = Except.ok bs →
        env.copyFails (sys.absPathOf (change.Path ++ ".txt")) = none →
        (download sys env now fs change).ret = none ∧
        fsLookup (download sys env now fs change).fs
            (sys.absPathOf (change.Path ++ ".txt")) =
          some { isDir := false, modTime := now, content := bs }) := by
  have hlk : (match List.lookup change.Src.MimeType docExportsMap with
              | some l => l
              | none => ["text/plain", "txt"]) = ["text/plain", "txt"] := by
    rw [hm]
  have hplan := exportPlan_eq change _ _ hb hlk
  have hdot : change.Path ++ "." ++ "txt" = change.Path ++ ".txt" :=
    append_dot _ _ _ rfl
  have e1 : (exportPlan change).2.1 = change.Path ++ ".txt" := by
    rw [hplan]; exact hdot
  have e2 : (exportPlan change).1 = exportLinksGet change.Src.ExportLinks "text/plain" := by
    rw [hplan]
  refine ⟨?_, ?_, ?_⟩
  · rw [download_printed, hplan]
    dsimp only
    rw [hdot]
  · intro c hc
    have hmem := download_calls sys env now fs change c hc
    rw [e2] at hmem
    exact hmem
  · intro bs h1 h2 h3
    rw [← e1] at h1 h3
    rw [← e2] at h2
    have hs := download_success sys env now fs change bs h1 h2 h3
    rw [e1] at hs
    exact hs

/-- C6: for every Change with non-empty `Src.BlobAt`, the materializer
fetches the raw blob (invoking the transport's `Download` with the content
id and an empty export URL) and writes the bytes to the destination path
equal to the logical `Path`, with no extension suffix appended and no
export-rename notice emitted. -/
theorem download_raw_blob (sys : Sys) (env : Env) (now : Int) (fs : Fs)
    (change : Change)
    (hb : change.Src.BlobAt ≠ "") :
    (download sys env now fs change).printed = []
    ∧ (∀ c ∈ (download sys env now fs change).calls, c = (change.Src.Id, ""))
    ∧ (∀ bs : String,
        env.createFails (sys.absPathOf change.Path) = none →
        env.transport change.Src.Id "" = Except.ok bs →
        env.copyFails (sys.absPathOf change.Path) = none →
        (download sys env now fs change).ret = none ∧
        (download sys env now fs change).calls = [(change.Src.Id, "")] ∧
        fsLookup (download sys env now fs change).fs (sys.absPathOf change.Path) =
          some { isDir := false, modTime := now, content := bs }) := by
  have hplan := exportPlan_blob change hb
  have e1 : (exportPlan change).2.1 = change.Path := by rw [hplan]
  have e2 : (exportPlan change).1 = "" := by rw [hplan]
  refine ⟨?_, ?_, ?_⟩
  · rw [download_printed, hplan]
  · intro c hc
    have hmem := download_calls sys env now fs change c hc
    rw [e2] at hmem
    exact hmem
  · intro bs h1 h2 h3
    rw [← e1] at h1 h3
    rw [← e2] at h2
    have hs := download_success sys env now fs change bs h1 h2 h3
    rw [e1] at hs
    refine ⟨hs.1, ?_, hs.2⟩
    have hc := download_calls_success sys env now fs change h1
    rw [e2] at hc
    exact hc

/-- C9: on every exit path of the materializer (success, copy error, fetch
error, create error), every resource it acquired — the destination file
handle and the remote response stream — is released before `download`
returns; no early return skips a release. -/
theorem download_releases_resources (sys : Sys) (env : Env) (now : Int) (fs : Fs)
    (change : Change) (r : Rsrc) :
    ((download sys env now fs change).events.count (DlEv.acquire r)) =
      (download sys env now fs change).events.count (DlEv.release r) := by
  unfold download
  dsimp only
  split
  · rfl
  · split
    · cases r <;> rfl
    · split <;> (cases r <;> rfl)

theorem download_doc_export_renaming_witness :
    (download sysW envW 7 [] changeDoc).ret = none ∧
    fsLookup (download sysW envW 7 [] changeDoc).fs
        (sysW.absPathOf (changeDoc.Path ++ ".docx")) =
      some { isDir := false, modTime := 7, content := "payload" } :=
  (download_doc_export_renaming sysW envW 7 [] changeDoc rfl (by decide) rfl).2.2
    "payload" rfl rfl rfl

theorem download_fallback_export_witness :
    (download sysW envW 7 [] changeUnknown).ret = none ∧
    fsLookup (download sysW envW 7 [] changeUnknown).fs
        (sysW.absPathOf (changeUnknown.Path ++ ".txt")) =
      some { isDir := false, modTime := 7, content := "payload" } :=
  (download_fallback_export sysW envW 7 [] changeUnknown rfl (by decide)).2.2
    "payload" rfl rfl rfl

theorem download_raw_blob_witness :
    (download sysW envW 7 [] changeBlob).ret = none ∧
    (download sysW envW 7 [] changeBlob).calls = [(changeBlob.Src.Id, "")] ∧
    fsLookup (download sysW envW 7 [] changeBlob).fs
        (sysW.absPathOf changeBlob.Path) =
      some { isDir := false, modTime := 7, content := "payload" } :=
  (download_raw_blob sysW envW 7 [] changeBlob (by decide)).2.2
    "payload" rfl rfl rfl

theorem osChtimes_ret_congr (fsA fsB : Fs) (p : String) (t : Int)
    (h : fsLookup fsA p = fsLookup fsB p) :
    (osChtimes fsA p t).2 = (osChtimes fsB p t).2 := by
  unfold osChtimes
  rw [h]
  cases fsLookup fsB p <;> rfl

theorem osMkdir_ret_congr (now : Int) (fsA fsB : Fs) (p : String)
    (h : fsLookup fsA p = fsLookup fsB p) :
    (osMkdir now fsA p).2 = (osMkdir now fsB p).2 := by
  unfold osMkdir
  rw [h]
  cases fsLookup fsB p <;> rfl

theorem osMkdirAll_lookup_ne (env : Env) (now : Int) (fs : Fs) (p q : String)
    (h : q ≠ p) :
    fsLookup (osMkdirAll env now fs p).1 q = fsLookup fs q := by
  unfold osMkdirAll
  cases env.mkdirAllFails p
  case some => rfl
  case none =>
    cases fsLookup fs p
    case some => rfl
    case none => exact fsLookup_fsSet_ne fs p _ q h

theorem download_ret_oracle (sys : Sys) (env : Env) (now : Int) (change : Change)
    (f g : String → Option Err) (fsA fsB : Fs) :
    (download sys { env with mkdirAllFails := f } now fsA change).ret =
      (download sys { env with mkdirAllFails := g } now fsB change).ret := by
  unfold download
  dsimp only
  cases h1 : env.createFails (sys.absPathOf (exportPlan change).2.1)
  case some => rfl
  case none =>
    cases h2 : env.transport change.Src.Id (exportPlan change).1
    case error => rfl
    case ok =>
      cases h3 : env.copyFails (sys.absPathOf (exportPlan change).2.1) <;> rfl

theorem download_fs_lookup_oracle (sys : Sys) (env : Env) (now : Int)
    (change : Change) (f g : String → Option Err) (fsA fsB : Fs) (q : String)
    (hq : fsLookup fsA q = fsLookup fsB q) :
    fsLookup (download sys { env with mkdirAllFails := f } now fsA change).fs q =
      fsLookup (download sys { env with mkdirAllFails := g } now fsB change).fs q := by
  unfold download
  dsimp only
  cases h1 : env.createFails (sys.absPathOf (exportPlan change).2.1)
  case some => exact hq
  case none =>
    cases h2 : env.transport change.Src.Id (exportPlan change).1
    case error =>
      dsimp only
      by_cases hqd : q = sys.absPathOf (exportPlan change).2.1
      · subst hqd
        rw [fsLookup_fsSet_self, fsLookup_fsSet_self]
      · rw [fsLookup_fsSet_ne _ _ _ _ hqd, fsLookup_fsSet_ne _ _ _ _ hqd]
        exact hq
    case ok =>
      cases h3 : env.copyFails (sys.absPathOf (exportPlan change).2.1)
      case some =>
        dsimp only
        by_cases hqd : q = sys.absPathOf (exportPlan change).2.1
        · subst hqd
          rw [fsLookup_fsSet_self, fsLookup_fsSet_self]
        · rw [fsLookup_fsSet_ne _ _ _ _ hqd, fsLookup_fsSet_ne _ _ _ _ hqd]
          exact hq
      case none =>
        dsimp only
        by_cases hqd : q = sys.absPathOf (exportPlan change).2.1
        · subst hqd
          rw [fsLookup_fsSet_self, fsLookup_fsSet_self]
        · rw [fsLookup_fsSet_ne _ _ _ _ hqd, fsLookup_fsSet_ne _ _ _ _ hqd,
            fsLookup_fsSet_ne _ _ _ _ hqd, fsLookup_fsSet_ne _ _ _ _ hqd]
          exact hq

/-- C4 (amended): after any successful Modify — including content-less ones
(empty `BlobAt`, nil `ExportLinks`) — and after any successful non-directory
Add, the modification time of the local entry at the change's path equals
`Src.ModTime` exactly; a directory Add, however, returns straight after
`os.Mkdir` and never sets the modification time, so it keeps the creation
clock (see the counterexample). -/
theorem handler_timestamp_preservation (sys : Sys) (env : Env) (now : Int)
    (fs : Fs) (change : Change) :
    ((localMod sys env now fs change).ret = none →
      entryModTime (localMod sys env now fs change).fs (sys.absPathOf change.Path)
        = some change.Src.ModTime)
    ∧ (change.Src.IsDir = false →
      (localAdd sys env now fs change).ret = none →
      entryModTime (localAdd sys env now fs change).fs (sys.absPathOf change.Path)
        = some change.Src.ModTime) := by
  constructor
  · intro hret
    unfold localMod at hret ⊢
    dsimp only at hret ⊢
    by_cases hc : change.Src.BlobAt ≠ "" ∨ change.Src.ExportLinks.isSome = true
    · rw [if_pos hc] at hret ⊢
      by_cases hd : (download sys env now fs change).ret.isSome = true
      · rw [if_pos hd] at hret
        dsimp only at hret
        rw [hret] at hd
        simp at hd
      · rw [if_neg hd] at hret ⊢
        dsimp only at hret ⊢
        exact osChtimes_none_modTime _ _ _ hret
    · rw [if_neg hc] at hret ⊢
      dsimp only at hret ⊢
      exact osChtimes_none_modTime _ _ _ hret
  · intro hdir hret
    unfold localAdd at hret ⊢
    dsimp only at hret ⊢
    rw [if_neg (show ¬change.Src.IsDir = true by simp [hdir])] at hret ⊢
    by_cases hc : change.Src.BlobAt ≠ "" ∨ change.Src.ExportLinks.isSome = true
    · rw [if_pos hc] at hret ⊢
      by_cases hd : (download sys env now
          (osMkdirAll env now fs (sys.dirOf (sys.absPathOf change.Path))).1
          change).ret.isSome = true
      · rw [if_pos hd] at hret
        dsimp only at hret
        rw [hret] at hd
        simp at hd
      · rw [if_neg hd] at hret ⊢
        dsimp only at hret ⊢
        exact osChtimes_none_modTime _ _ _ hret
    · rw [if_neg hc] at hret ⊢
      dsimp only at hret ⊢
      exact osChtimes_none_modTime _ _ _ hret

/-- C4 counterexample: a successful Add of a directory (`Src.IsDir = true`)
leaves the directory's modification time at the creation clock (here 100),
not at `Src.ModTime` (here 5): `localAdd` returns after `os.Mkdir` without
running `os.Chtimes`. -/
theorem localAdd_dir_timestamp_counterexample :
    changeDir.Src.IsDir = true ∧
    (localAdd sysW envW 100 [] changeDir).ret = none ∧
    entryModTime (localAdd sysW envW 100 [] changeDir).fs
        (sysW.absPathOf changeDir.Path) = some 100 ∧
    entryModTime (localAdd sysW envW 100 [] changeDir).fs
        (sysW.absPathOf changeDir.Path) ≠ some changeDir.Src.ModTime := by
  decide

theorem handler_timestamp_preservation_witness :
    entryModTime (localMod sysW envW 100 fsPlain changePlain).fs
        (sysW.absPathOf changePlain.Path) = some changePlain.Src.ModTime ∧
    entryModTime (localAdd sysW envW 100 fsPlain changePlain).fs
        (sysW.absPathOf changePlain.Path) = some changePlain.Src.ModTime :=
  ⟨(handler_timestamp_preservation sysW envW 100 fsPlain changePlain).1 (by decide),
   (handler_timestamp_preservation sysW envW 100 fsPlain changePlain).2
     (by decide) (by decide)⟩

/-- C8 (amended): for every Add or Modify Change whose `Src` is a
non-directory with empty `BlobAt` and nil `ExportLinks`, the handlers skip
content materialization entirely — no transport call is made, nothing is
printed, no fallback export happens — and only the timestamp step runs
against the change's path. -/
theorem handler_no_content_skips (sys : Sys) (env : Env) (now : Int) (fs : Fs)
    (change : Change)
    (h1 : change.Src.BlobAt = "") (h2 : change.Src.ExportLinks = none) :
    localMod sys env now fs change =
      { fs := (osChtimes fs (sys.absPathOf change.Path) change.Src.ModTime).1,
        printed := [], calls := [],
        ret := (osChtimes fs (sys.absPathOf change.Path) change.Src.ModTime).2 }
    ∧ (change.Src.IsDir = false →
      localAdd sys env now fs change =
        { fs := (osChtimes
                  (osMkdirAll env now fs (sys.dirOf (sys.absPathOf change.Path))).1
                  (sys.absPathOf change.Path) change.Src.ModTime).1,
          printed := [], calls := [],
          ret := (osChtimes
                   (osMkdirAll env now fs (sys.dirOf (sys.absPathOf change.Path))).1
                   (sys.absPathOf change.Path) change.Src.ModTime).2 }) := by
  have hc : ¬(change.Src.BlobAt ≠ "" ∨ change.Src.ExportLinks.isSome = true) := by
    simp [h1, h2]
  constructor
  · unfold localMod
    dsimp only
    rw [if_neg hc]
  · intro hdir
    unfold localAdd
    dsimp only
    rw [if_neg (show ¬change.Src.IsDir = true by simp [hdir]), if_neg hc]

/-- C8 counterexample: a Modify of a non-directory change with empty
`BlobAt` and nil `ExportLinks` succeeds without any transport call and
without producing the fallback `Path ++ ".txt"` artifact — content
materialization is skipped, not redirected to the default export. -/
theorem localMod_no_content_counterexample :
    changePlain.Src.BlobAt = "" ∧ changePlain.Src.ExportLinks = none ∧
    changePlain.Src.IsDir = false ∧
    (localMod sysW envW 100 fsPlain changePlain).ret = none ∧
    (localMod sysW envW 100 fsPlain changePlain).calls = [] ∧
    (localMod sysW envW 100 fsPlain changePlain).printed = [] ∧
    fsLookup (localMod sysW envW 100 fsPlain changePlain).fs
        (sysW.absPathOf (changePlain.Path ++ ".txt")) = none := by
  decide

theorem handler_no_content_skips_witness :
    localMod sysW envW 100 fsPlain changePlain =
      { fs := (osChtimes fsPlain (sysW.absPathOf changePlain.Path)
                changePlain.Src.ModTime).1,
        printed := [], calls := [],
        ret := (osChtimes fsPlain (sysW.absPathOf changePlain.Path)
                 changePlain.Src.ModTime).2 } :=
  (handler_no_content_skips sysW envW 100 fsPlain changePlain rfl rfl).1

/-- C7 (amended): `localAdd` discards the result of the parent-directory
creation step entirely — its returned error is the same whatever
`os.MkdirAll` reports, a pre-existing parent or any other failure — while
content-materialization (download) failures and timestamp-setting (chtimes)
failures propagate to the handler's result. The hypothesis only rules out
the degenerate path context in which the parent directory is the destination
itself. -/
theorem localAdd_error_policy (sys : Sys) (env : Env) (now : Int) (fs : Fs)
    (change : Change)
    (hp : sys.dirOf (sys.absPathOf change.Path) ≠ sys.absPathOf change.Path) :
    (∀ f g : String → Option Err,
      (localAdd sys { env with mkdirAllFails := f } now fs change).ret =
        (localAdd sys { env with mkdirAllFails := g } now fs change).ret)
    ∧ (∀ e : Err, change.Src.IsDir = false →
        (change.Src.BlobAt ≠ "" ∨ change.Src.ExportLinks.isSome = true) →
        (download sys env now
          (osMkdirAll env now fs (sys.dirOf (sys.absPathOf change.Path))).1
          change).ret = some e →
        (localAdd sys env now fs change).ret = some e)
    ∧ (∀ e : Err, change.Src.IsDir = false →
        (change.Src.BlobAt ≠ "" ∨ change.Src.ExportLinks.isSome = true) →
        (download sys env now
          (osMkdirAll env now fs (sys.dirOf (sys.absPathOf change.Path))).1
          change).ret = none →
        (osChtimes
          (download sys env now
            (osMkdirAll env now fs (sys.dirOf (sys.absPathOf change.Path))).1
            change).fs
          (sys.absPathOf change.Path) change.Src.ModTime).2 = some e →
        (localAdd sys env now fs change).ret = some e)
    ∧ (∀ e : Err, change.Src.IsDir = false →
        ¬(change.Src.BlobAt ≠ "" ∨ change.Src.ExportLinks.isSome = true) →
        (osChtimes (osMkdirAll env now fs (sys.dirOf (sys.absPathOf change.Path))).1
          (sys.absPathOf change.Path) change.Src.ModTime).2 = some e →
        (localAdd sys env now fs change).ret = some e) := by
  refine ⟨?_, ?_, ?_, ?_⟩
  · intro f g
    unfold localAdd
    dsimp only
    have hs1 : fsLookup
        ((osMkdirAll { env with mkdirAllFails := f } now fs
          (sys.dirOf (sys.absPathOf change.Path))).1) (sys.absPathOf change.Path)
        = fsLookup
        ((osMkdirAll { env with mkdirAllFails := g } now fs
          (sys.dirOf (sys.absPathOf change.Path))).1) (sys.absPathOf change.Path) := by
      rw [osMkdirAll_lookup_ne _ now fs _ _ (Ne.symm hp),
        osMkdirAll_lookup_ne _ now fs _ _ (Ne.symm hp)]
    by_cases hdir : change.Src.IsDir = true
    · rw [if_pos hdir, if_pos hdir]
      dsimp only
      exact osMkdir_ret_congr now _ _ _ hs1
    · rw [if_neg hdir, if_neg hdir]
      by_cases hc : change.Src.BlobAt ≠ "" ∨ change.Src.ExportLinks.isSome = true
      · rw [if_pos hc, if_pos hc]
        have hdret := download_ret_oracle sys env now change f g
          ((osMkdirAll { env with mkdirAllFails := f } now fs
            (sys.dirOf (sys.absPathOf change.Path))).1)
          ((osMkdirAll { env with mkdirAllFails := g } now fs
            (sys.dirOf (sys.absPathOf change.Path))).1)
        have hl := download_fs_lookup_oracle sys env now change f g
          ((osMkdirAll { env with mkdirAllFails := f } now fs
            (sys.dirOf (sys.absPathOf change.Path))).1)
          ((osMkdirAll { env with mkdirAllFails := g } now fs
            (sys.dirOf (sys.absPathOf change.Path))).1)
          (sys.absPathOf change.Path) hs1
        cases hdm : (download sys { env with mkdirAllFails := f } now
            ((osMkdirAll { env with mkdirAllFails := f } now fs
              (sys.dirOf (sys.absPathOf change.Path))).1) change).ret
        · rw [hdm] at hdret
          rw [if_neg (show ¬(none : Option Err).isSome = true by simp),
            if_neg (show _ by rw [← hdret]; simp)]
          dsimp only
          exact osChtimes_ret_congr _ _ _ _ hl
        · rename_i e
          rw [hdm] at hdret
          rw [if_pos (show (some e : Option Err).isSome = true from rfl),
            if_pos (show _ by rw [← hdret]; rfl)]
          dsimp only
          exact hdret
      · rw [if_neg hc, if_neg hc]
        dsimp only
        exact osChtimes_ret_congr _ _ _ _ hs1
  · intro e hdir hc hdl
    unfold localAdd
    dsimp only
    rw [if_neg (show ¬change.Src.IsDir = true by simp [hdir]), if_pos hc,
      if_pos (show _ by rw [hdl]; rfl)]
    dsimp only
    exact hdl
  · intro e hdir hc hdl hch
    unfold localAdd
    dsimp only
    rw [if_neg (show ¬change.Src.IsDir = true by simp [hdir]), if_pos hc,
      if_neg (show _ by rw [hdl]; simp)]
    dsimp only
    exact hch
  · intro e hdir hc hch
    unfold localAdd
    dsimp only
    rw [if_neg (show ¬change.Src.IsDir = true by simp [hdir]), if_neg hc]
    dsimp only
    exact hch

/-- C7 counterexample: the parent directory does not pre-exist and
`os.MkdirAll` fails with a permission error — not an already-exists error —
yet `localAdd` still returns success: the claim's "tolerated only when
caused by pre-existing parent directories" does not hold, every mkdir error
is discarded. -/
theorem localAdd_mkdir_tolerance_counterexample :
    envPerm.mkdirAllFails (sysW.dirOf (sysW.absPathOf changeAddBlob.Path)) =
      some "mkdir /mnt/gd: permission denied" ∧
    fsLookup [] (sysW.dirOf (sysW.absPathOf changeAddBlob.Path)) = none ∧
    (osMkdirAll envPerm 100 [] (sysW.dirOf (sysW.absPathOf changeAddBlob.Path))).2 =
      some "mkdir /mnt/gd: permission denied" ∧
    (localAdd sysW envPerm 100 [] changeAddBlob).ret = none := by
  decide

theorem localAdd_error_policy_witness :
    (∀ f g : String → Option Err,
      (localAdd sysW { envW with mkdirAllFails := f } 100 [] changeAddBlob).ret =
        (localAdd sysW { envW with mkdirAllFails := g } 100 [] changeAddBlob).ret)
    ∧ (∀ e : Err, changeAddBlob.Src.IsDir = false →
        (changeAddBlob.Src.BlobAt ≠ "" ∨ changeAddBlob.Src.ExportLinks.isSome = true) →
        (download sysW envW 100
          (osMkdirAll envW 100 [] (sysW.dirOf (sysW.absPathOf changeAddBlob.Path))).1
          changeAddBlob).ret = some e →
        (localAdd sysW envW 100 [] changeAddBlob).ret = some e)
    ∧ (∀ e : Err, changeAddBlob.Src.IsDir = false →
        (changeAddBlob.Src.BlobAt ≠ "" ∨ changeAddBlob.Src.ExportLinks.isSome = true) →
        (download sysW envW 100
          (osMkdirAll envW 100 [] (sysW.dirOf (sysW.absPathOf changeAddBlob.Path))).1
          changeAddBlob).ret = none →
        (osChtimes
          (download sysW envW 100
            (osMkdirAll envW 100 [] (sysW.dirOf (sysW.absPathOf changeAddBlob.Path))).1
            changeAddBlob).fs
          (sysW.absPathOf changeAddBlob.Path) changeAddBlob.Src.ModTime).2 = some e →
        (localAdd sysW envW 100 [] changeAddBlob).ret = some e)
    ∧ (∀ e : Err, changeAddBlob.Src.IsDir = false →
        ¬(changeAddBlob.Src.BlobAt ≠ "" ∨ changeAddBlob.Src.ExportLinks.isSome = true) →
        (osChtimes
          (osMkdirAll envW 100 [] (sysW.dirOf (sysW.absPathOf changeAddBlob.Path))).1
          (sysW.absPathOf changeAddBlob.Path) changeAddBlob.Src.ModTime).2 = some e →
        (localAdd sysW envW 100 [] changeAddBlob).ret = some e) :=
  localAdd_error_policy sysW envW 100 [] changeAddBlob (by decide)

/-- C10: for every Delete Change whose `Dest.BlobAt` names a path with no
entry at or below it on the local filesystem, the Delete handler returns
success (nil error) and leaves the filesystem unchanged: Delete is
idempotent at the public interface. -/
theorem localDelete_idempotent (env : Env) (fs : Fs) (change : Change)
    (h : ∀ kv ∈ fs, underPath change.Dest.BlobAt kv.1 = false) :
    localDelete env fs change = (fs, none) := by
  have hcond : (fs.all fun kv => !(underPath change.Dest.BlobAt kv.1)) = true :=
    List.all_eq_true.mpr fun kv hkv => by rw [h kv hkv]; rfl
  unfold localDelete osRemoveAll
  rw [if_pos hcond]

theorem localDelete_idempotent_witness :
    localDelete envW fsKeep changeDel = (fsKeep, none) :=
  localDelete_idempotent envW fsKeep changeDel (by decide)

theorem popBatch_join (cl : List Change) :
    (popBatch cl).1 ++ (popBatch cl).2 = cl := by
  unfold popBatch
  split
  · exact List.take_append_drop _ _
  · simp

theorem popBatch_snd_lt (cl : List Change) (h : cl ≠ []) :
    (popBatch cl).2.length < cl.length := by
  unfold popBatch
  split
  · rename_i hgt
    simp only [List.length_drop]
    simp only [maxNumOfConcPullTasks] at hgt ⊢
    omega
  · simp only [List.length_nil]
    exact List.length_pos.mpr h

theorem popBatch_length (cl : List Change) :
    (popBatch cl).1.length + (popBatch cl).2.length = cl.length := by
  rw [← List.length_append, popBatch_join]

theorem popBatch_one_length (cl : List Change) (h : cl ≠ []) :
    0 < (popBatch cl).1.length ∧ (popBatch cl).1.length ≤ maxNumOfConcPullTasks := by
  unfold popBatch
  split
  · rename_i hgt
    simp only [List.length_take]
    simp only [maxNumOfConcPullTasks] at *
    omega
  · rename_i hle
    simp only [maxNumOfConcPullTasks] at *
    exact ⟨List.length_pos.mpr h, by omega⟩

theorem popBatch_snd_nil (cl : List Change)
    (h : ¬cl.length > maxNumOfConcPullTasks) : (popBatch cl).2 = [] := by
  unfold popBatch
  rw [if_neg h]

theorem popBatch_fst_len (cl : List Change)
    (h : cl.length > maxNumOfConcPullTasks) :
    (popBatch cl).1.length = maxNumOfConcPullTasks := by
  unfold popBatch
  rw [if_pos h]
  simp only [List.length_take]
  omega

theorem batches_join (cl : List Change) : (batches cl).flatten = cl := by
  rw [batches]
  split
  · rename_i h
    rw [h]
    rfl
  · rename_i h
    rw [List.flatten_cons, batches_join (popBatch cl).2, popBatch_join]
termination_by cl.length
decreasing_by exact popBatch_snd_lt _ (by assumption)

theorem batches_sizes (cl : List Change) :
    ∀ b ∈ batches cl, 0 < b.length ∧ b.length ≤ maxNumOfConcPullTasks := by
  rw [batches]
  split
  · simp
  · rename_i h
    intro b hb
    rcases List.mem_cons.mp hb with rfl | hb2
    · exact popBatch_one_length cl h
    · exact batches_sizes (popBatch cl).2 b hb2
termination_by cl.length
decreasing_by exact popBatch_snd_lt _ (by assumption)

theorem evIdx_taskEvents {base : Nat} {b : List Change} {rs : List (Option Err)}
    {e : Ev} (he : e ∈ taskEvents base b rs) :
    base ≤ evIdx e ∧ evIdx e < base + b.length := by
  induction b generalizing base rs with
  | nil => simp [taskEvents] at he
  | cons c cs ih =>
    cases rs with
    | nil => simp [taskEvents] at he
    | cons r rs =>
      simp only [taskEvents, List.mem_cons] at he
      rcases he with rfl | rfl | he2
      · simp [evIdx]
      · simp [evIdx]
      · have h2 := @ih (base + 1) rs he2
        simp only [List.length_cons]
        omega

theorem taskEvents_complete_mem (base : Nat) (b : List Change)
    (rs : List (Option Err)) (i : Nat) (hib : i < b.length) (hir : i < rs.length) :
    Ev.complete (base + i) (b.get ⟨i, hib⟩) (rs.get ⟨i, hir⟩) ∈
      taskEvents base b rs := by
  induction b generalizing base rs i with
  | nil => simp at hib
  | cons c cs ih =>
    cases rs with
    | nil => simp at hir
    | cons r rs =>
      cases i with
      | zero => simp [taskEvents]
      | succ j =>
        have hj : j < cs.length := by simpa using hib
        have hjr : j < rs.length := by simpa using hir
        have hm := ih (base + 1) rs j hj hjr
        have harith : base + (j + 1) = base + 1 + j := by omega
        simp only [taskEvents, List.mem_cons, List.get_cons_succ]
        rw [harith]
        exact Or.inr (Or.inr hm)

theorem taskEvents_dispatch_mem (base : Nat) (b : List Change)
    (rs : List (Option Err)) (hlen : rs.length = b.length) (i : Nat)
    (hib : i < b.length) :
    Ev.dispatch (base + i) (b.get ⟨i, hib⟩) ∈ taskEvents base b rs := by
  induction b generalizing base rs i with
  | nil => simp at hib
  | cons c cs ih =>
    cases rs with
    | nil => simp at hlen
    | cons r rs =>
      cases i with
      | zero => simp [taskEvents]
      | succ j =>
        have hj : j < cs.length := by simpa using hib
        have hlen' : rs.length = cs.length := by simpa using hlen
        have hm := ih (base + 1) rs hlen' j hj
        have harith : base + (j + 1) = base + 1 + j := by omega
        simp only [taskEvents, List.mem_cons, List.get_cons_succ]
        rw [harith]
        exact Or.inr (Or.inr hm)

theorem ValidFrom_nil_inv {base : Nat} {t : List Ev}
    (h : ValidFrom base [] t) : t = [] := by
  cases h with
  | nil => rfl
  | cons hne _ _ => exact absurd rfl hne

theorem ValidFrom_evIdx {base : Nat} {cl : List Change} {t : List Ev}
    (h : ValidFrom base cl t) :
    ∀ e ∈ t, base ≤ evIdx e ∧ evIdx e < base + cl.length := by
  induction h with
  | nil => simp
  | cons hne hseg hrest ih =>
    intro e he
    rename_i base' cl' seg rest
    rcases List.mem_append.mp he with hs | hr
    · obtain ⟨rs, hlen, hperm⟩ := hseg
      have hb := evIdx_taskEvents (hperm.subset hs)
      have hlen2 := popBatch_length cl'
      omega
    · have hb := ih e hr
      have hlen2 := popBatch_length cl'
      omega

theorem ValidFrom_barrier {base : Nat} {cl : List Change} {t : List Ev}
    (h : ValidFrom base cl t) (hb : base % maxNumOfConcPullTasks = 0) :
    ∀ t1 j c t2, t = t1 ++ Ev.dispatch j c :: t2 →
      ∀ i c2 r, i / maxNumOfConcPullTasks < j / maxNumOfConcPullTasks →
        Ev.complete i c2 r ∉ t2 := by
  induction h with
  | nil =>
    intro t1 j c t2 heq
    exact absurd heq.symm (by simp)
  | cons hne hseg hrest ih =>
    rename_i base' cl' seg rest
    intro t1 j c t2 heq i c2 r hij hmem
    rcases List.append_eq_append_iff.mp heq.symm with ⟨a, ha1, ha2⟩ | ⟨a, ha1, ha2⟩
    · -- seg = t1 ++ a and dispatch j c :: t2 = a ++ rest
      cases a with
      | nil =>
        -- dispatch is the head of rest
        by_cases hgt : cl'.length > maxNumOfConcPullTasks
        · have hL := popBatch_fst_len cl' hgt
          have := ih (by simp only [maxNumOfConcPullTasks] at *; omega)
            [] j c t2 (by simpa using ha2.symm) i c2 r hij
          exact this hmem
        · have hnil := popBatch_snd_nil cl' hgt
          rw [hnil] at hrest
          rw [ValidFrom_nil_inv hrest] at ha2
          simp at ha2
      | cons x a' =>
        -- dispatch j c is inside seg (it heads a, a suffix of seg)
        have hx : x = Ev.dispatch j c := by
          have := ha2
          simp only [List.cons_append] at this
          exact (List.cons_eq_cons.mp this).1.symm
        have hdisp_seg : Ev.dispatch j c ∈ seg := by
          rw [ha1, hx]
          simp
        obtain ⟨rs, hlen, hperm⟩ := hseg
        have hjb := evIdx_taskEvents (hperm.subset hdisp_seg)
        simp only [evIdx] at hjb
        have hL := popBatch_one_length cl' hne
        -- every event of the whole trace has index ≥ base'
        have hcomp : Ev.complete i c2 r ∈ seg ++ rest := by
          rw [heq]
          simp [hmem]
        have hib := ValidFrom_evIdx (ValidFrom.cons hne ⟨rs, hlen, hperm⟩ hrest)
          _ hcomp
        simp only [evIdx] at hib
        simp only [maxNumOfConcPullTasks] at *
        omega
    · -- t1 = seg ++ a and rest = a ++ dispatch j c :: t2
      by_cases hgt : cl'.length > maxNumOfConcPullTasks
      · have hL := popBatch_fst_len cl' hgt
        have := ih (by simp only [maxNumOfConcPullTasks] at *; omega)
          a j c t2 ha2 i c2 r hij
        exact this hmem
      · have hnil := popBatch_snd_nil cl' hgt
        rw [hnil] at hrest
        rw [ValidFrom_nil_inv hrest] at ha2
        simp at ha2

theorem ValidFrom_complete {base : Nat} {cl : List Change} {t : List Ev}
    (h : ValidFrom base cl t) :
    ∀ i (hi : i < cl.length),
      Ev.dispatch (base + i) (cl.get ⟨i, hi⟩) ∈ t ∧
      ∃ r, Ev.complete (base + i) (cl.get ⟨i, hi⟩) r ∈ t := by
  induction h with
  | nil => intro i hi; simp at hi
  | cons hne hseg hrest ih =>
    rename_i base' cl' seg rest
    intro i hi
    obtain ⟨rs, hlen, hperm⟩ := hseg
    have hjoin := popBatch_join cl'
    by_cases hiL : i < (popBatch cl').1.length
    · have hget : cl'.get ⟨i, hi⟩ = (popBatch cl').1.get ⟨i, hiL⟩ := by
        rw [List.get_of_eq hjoin.symm ⟨i, hi⟩]
        simp only [List.get_eq_getElem]
        exact List.getElem_append_left hiL
      have hd := taskEvents_dispatch_mem base' (popBatch cl').1 rs hlen i hiL
      have hc := taskEvents_complete_mem base' (popBatch cl').1 rs i hiL
        (by omega)
      rw [← hget] at hd hc
      exact ⟨List.mem_append_left _ (hperm.mem_iff.mpr hd),
        ⟨_, List.mem_append_left _ (hperm.mem_iff.mpr hc)⟩⟩
    · have hlen2 := popBatch_length cl'
      have hi2 : i - (popBatch cl').1.length < (popBatch cl').2.length := by omega
      have hih := ih (i - (popBatch cl').1.length) hi2
      have harith : base' + (popBatch cl').1.length + (i - (popBatch cl').1.length)
          = base' + i := by omega
      have hget : cl'.get ⟨i, hi⟩
          = (popBatch cl').2.get ⟨i - (popBatch cl').1.length, hi2⟩ := by
        rw [List.get_of_eq hjoin.symm ⟨i, hi⟩]
        simp only [List.get_eq_getElem]
        exact List.getElem_append_right (by omega)
      rw [harith, ← hget] at hih
      exact ⟨List.mem_append_right _ hih.1,
        ⟨hih.2.choose, List.mem_append_right _ hih.2.choose_spec⟩⟩

/-- C1: for every change list, the applier partitions it into consecutive
batches of at most `maxNumOfConcPullTasks = 4` changes, preserving the
original order within and across batches (the batches rejoin to the list),
and in every trace the applier can produce, every task of batch `k` is
dispatched and completes (success or failure) before any task of batch
`k + 1` is dispatched (task `i` belongs to batch `i / 4`). -/
theorem playPullChangeList_batch_barrier (cl : List Change) (t : List Ev)
    (h : ValidTrace cl t) :
    (batches cl).flatten = cl
    ∧ (∀ b ∈ batches cl, 0 < b.length ∧ b.length ≤ maxNumOfConcPullTasks)
    ∧ (∀ i (hi : i < cl.length),
        Ev.dispatch i (cl.get ⟨i, hi⟩) ∈ t ∧
        ∃ r, Ev.complete i (cl.get ⟨i, hi⟩) r ∈ t)
    ∧ (∀ t1 j c t2, t = t1 ++ Ev.dispatch j c :: t2 →
        ∀ i c2 r, i / maxNumOfConcPullTasks < j / maxNumOfConcPullTasks →
          Ev.complete i c2 r ∉ t2) := by
  refine ⟨batches_join cl, batches_sizes cl, ?_, ?_⟩
  · intro i hi
    have hc := ValidFrom_complete h i hi
    simpa using hc
  · exact ValidFrom_barrier h (by simp)

theorem playRun_snd (results : Nat → Option Err) (base : Nat) (cl : List Change) :
    (playRun results base cl).2 = none := by
  rw [playRun]
  split
  · rfl
  · exact playRun_snd results (base + (popBatch cl).1.length) (popBatch cl).2
termination_by cl.length
decreasing_by exact popBatch_snd_lt _ (by assumption)

theorem resultsList_length (results : Nat → Option Err) (base n : Nat) :
    (resultsList results base n).length = n := by
  simp [resultsList]

theorem resultsList_get (results : Nat → Option Err) (base n i : Nat)
    (hi : i < (resultsList results base n).length) :
    (resultsList results base n).get ⟨i, hi⟩ = results (base + i) := by
  simp [resultsList]

theorem playRun_complete (results : Nat → Option Err) (base : Nat)
    (cl : List Change) :
    ∀ i (hi : i < cl.length),
      Ev.complete (base + i) (cl.get ⟨i, hi⟩) (results (base + i)) ∈
        (playRun results base cl).1 := by
  intro i hi
  rw [playRun]
  split
  · rename_i hemp
    subst hemp
    simp at hi
  · rename_i hne
    dsimp only
    have hjoin := popBatch_join cl
    have hlen2 := popBatch_length cl
    by_cases hiL : i < (popBatch cl).1.length
    · have hget : cl.get ⟨i, hi⟩ = (popBatch cl).1.get ⟨i, hiL⟩ := by
        rw [List.get_of_eq hjoin.symm ⟨i, hi⟩]
        simp only [List.get_eq_getElem]
        exact List.getElem_append_left hiL
      have hir : i < (resultsList results base (popBatch cl).1.length).length := by
        rw [resultsList_length]; exact hiL
      have hc := taskEvents_complete_mem base (popBatch cl).1
        (resultsList results base (popBatch cl).1.length) i hiL hir
      rw [← hget, resultsList_get] at hc
      exact List.mem_append_left _ hc
    · have hi2 : i - (popBatch cl).1.length < (popBatch cl).2.length := by omega
      have hih := playRun_complete results (base + (popBatch cl).1.length)
        (popBatch cl).2 (i - (popBatch cl).1.length) hi2
      have harith : base + (popBatch cl).1.length + (i - (popBatch cl).1.length)
          = base + i := by omega
      have hget : cl.get ⟨i, hi⟩
          = (popBatch cl).2.get ⟨i - (popBatch cl).1.length, hi2⟩ := by
        rw [List.get_of_eq hjoin.symm ⟨i, hi⟩]
        simp only [List.get_eq_getElem]
        exact List.getElem_append_right (by omega)
      rw [harith, ← hget] at hih
      exact List.mem_append_right _ hih
termination_by cl.length
decreasing_by exact popBatch_snd_lt _ (by assumption)

/-- C3: for every change list and every assignment of per-task results, the
loop of `playPullChangeList` runs every dispatched task to completion — an
error from any handler task halts neither the rest of its batch nor any
later batch — and the applier's returned error is nil regardless of how many
tasks failed (the loop never assigns the `err` named return). -/
theorem playPullChangeList_fail_soft (cl : List Change)
    (results : Nat → Option Err) :
    (playRun results 0 cl).2 = none
    ∧ ∀ i (hi : i < cl.length),
        Ev.complete i (cl.get ⟨i, hi⟩) (results i) ∈ (playRun results 0 cl).1 := by
  refine ⟨playRun_snd results 0 cl, ?_⟩
  intro i hi
  have hc := playRun_complete results 0 cl i hi
  simpa using hc

theorem playRun_valid (results : Nat → Option Err) (base : Nat)
    (cl : List Change) : ValidFrom base cl (playRun results base cl).1 := by
  rw [playRun]
  split
  · rename_i hemp
    subst hemp
    exact ValidFrom.nil
  · rename_i hne
    dsimp only
    refine ValidFrom.cons hne
      ⟨resultsList results base (popBatch cl).1.length, resultsList_length _ _ _,
        List.Perm.refl _⟩
      (playRun_valid results (base + (popBatch cl).1.length) (popBatch cl).2)
termination_by cl.length
decreasing_by exact popBatch_snd_lt _ (by assumption)

theorem playPullChangeList_batch_barrier_witness :
    (batches clW).flatten = clW
    ∧ (∀ b ∈ batches clW, 0 < b.length ∧ b.length ≤ maxNumOfConcPullTasks)
    ∧ (∀ i (hi : i < clW.length),
        Ev.dispatch i (clW.get ⟨i, hi⟩) ∈ (playRun resultsW 0 clW).1 ∧
        ∃ r, Ev.complete i (clW.get ⟨i, hi⟩) r ∈ (playRun resultsW 0 clW).1)
    ∧ (∀ t1 j c t2, (playRun resultsW 0 clW).1 = t1 ++ Ev.dispatch j c :: t2 →
        ∀ i c2 r, i / maxNumOfConcPullTasks < j / maxNumOfConcPullTasks →
          Ev.complete i c2 r ∉ t2) :=
  playPullChangeList_batch_barrier clW (playRun resultsW 0 clW).1
    (playRun_valid resultsW 0 clW)

theorem playPullChangeList_fail_soft_witness :
    (playRun resultsW 0 clW).2 = none ∧
    Ev.complete 4 (clW.get ⟨4, by decide⟩) (resultsW 4) ∈ (playRun resultsW 0 clW).1 :=
  ⟨(playPullChangeList_fail_soft clW resultsW).1,
   (playPullChangeList_fail_soft clW resultsW).2 4 (by decide)⟩

end Drive

